import Mathlib

/-!
# cvparser: content-stream interpreter, word assembler and document structurer

A shallow embedding of `examples/cvparser.cpp`.

* `std::string` values are Lean `String`s; `varstack` is a `List` whose head is the
  top of the `std::stack`; the global vectors `letters` and `allwords` are `List String`.
* Everything the program writes to standard output (`printf`, `cout`) is appended to
  a `String`.
* C++ exceptions and undefined behaviour are explicit results (`Abort`).
* The PoDoFo library itself is not part of the embedded source: the resource lookup,
  the font cache and the encoding conversion are fields of `PdfPage` and
  `PdfMemDocument`.
* The loop cursors `int i` are unbounded `Int`s: the embedding covers vectors of
  fewer than `2^31` elements, for which `i++` cannot overflow.
-/

namespace CVParser

/-! ## C strings -/

/-- The C library `strstr(hay, needle) != 0` on character lists: `needle` occurs in
`hay` as a contiguous run (the empty needle occurs everywhere). -/
def strstrChars : List Char → List Char → Bool
  | [], needle => needle.isEmpty
  | c :: hay, needle => needle.isPrefixOf (c :: hay) || strstrChars hay needle

/-- The test `strstr(term, needle) != 0` of `PrintCV`. -/
def strstr (term needle : String) : Bool :=
  strstrChars term.data needle.data

/-- The conversion `std::string(s.c_str())`: the characters before the first NUL. -/
def c_str (s : String) : String :=
  ⟨s.data.takeWhile (fun c => c != Char.ofNat 0)⟩

/-! ## PrintCV, first half: the word assembler (lines 157-177) -/

/-- The loop `for(int i=0;i<letters.size();i++)` of `PrintCV`, as a recursion over
the fragments still to be read. `wordstream` is the content of the
`ostringstream`, `allwords` the global vector. Returns both at loop exit. -/
def wordLoop : List String → String → List String → String × List String
  | [], wordstream, allwords => (wordstream, allwords)
  | letter :: rest, wordstream, allwords =>
    if letter ≠ " " then
      -- wordstream << letters.at(i);
      wordLoop rest (wordstream ++ letter) allwords
    else if letter = " " then
      -- word = wordstream.str(); if(word!="") allwords.push_back(word);
      let word := wordstream
      let allwords1 := if word ≠ "" then allwords ++ [word] else allwords
      -- wordstream.str("");
      wordLoop rest "" allwords1
    else
      wordLoop rest wordstream allwords

/-- The vector `allwords` after the first loop of `PrintCV`, started from the empty
global vector. Nothing after the loop reads `wordstream` again. -/
def assembleWords (letters : List String) : List String :=
  (wordLoop letters "" []).2

/-! ## Abnormal termination -/

/-- The `EPdfError` codes that `cvparser.cpp` can raise, directly or through a
`PdfVariant` accessor. -/
inductive EPdfError where
  | InvalidHandle
  | InternalLogic
  | InvalidDataType
  deriving DecidableEq, Repr

/-- The ways the run stops before its normal end. -/
inductive Abort where
  /-- A `PdfError` was thrown; `main` catches it, prints it and returns its code. -/
  | pdfError (code : EPdfError)
  /-- Undefined behaviour: `txtfont->GetEncoding()` through a null `txtfont`. -/
  | nullFont
  /-- Undefined behaviour: `top()` or `pop()` on an empty `std::stack`. -/
  | emptyStack
  /-- The exception `std::out_of_range` thrown by `vector::at`; `main` has no handler for it. -/
  | outOfRange
  /-- Not a behaviour of the program: the step budget of an embedded loop ran out. -/
  | outOfFuel
  deriving DecidableEq, Repr

/-- An abnormal termination together with the text written to standard output
before it. -/
structure Failure where
  cause : Abort
  stdout : String
  deriving DecidableEq, Repr

/-! ## PrintCV, second half: the document structurer (lines 181-248) -/

/-- The local vector `keywords` (line 181). -/
def keywords : List String :=
  ["ACHIEVEMENTS", "PROFESSIONAL", "EXPERIENCE", "EDUCATION", "Frontend"]

/-- The implicit conversion of the `int` cursor to `size_t` in `i<allwords.size()`,
`i>=allwords.size()` and `allwords.at(i)`. -/
def toSizeT (i : Int) : Nat :=
  (i % 2 ^ 64).toNat

/-- The access `allwords.at(i)`; `none` stands for `std::out_of_range`. -/
def vectorAt (allwords : List String) (i : Int) : Option String :=
  allwords[toSizeT i]?

/-- The condition of line 187: the word is printed as a title. -/
def isTitle (term : String) : Bool :=
  strstr term "EDUCATION" || strstr term "EXPERIENCE" || strstr term "ACHIEVEMENTS"

/-- The condition of line 192 (and the negation of the `while` condition of
line 209): the word holds a bullet glyph. -/
def isBullet (term : String) : Bool :=
  strstr term "•" || strstr term "●"

/-- The loop `for(int j=0;j<keywords.size();j++)` of lines 213-220 over the keywords
still to be tried: each keyword found in `term` writes a line break and sets
`iskeyword`. -/
def keywordScan (term : String) : List String → String × Bool → String × Bool
  | [], acc => acc
  | kw :: rest, (out, iskeyword) =>
    if strstr term kw then keywordScan term rest (out ++ "\n", true)
    else keywordScan term rest (out, iskeyword)

/-- The loop `while(strstr(term,"•")==0 && strstr(term,"●")==0)` of lines 209-237.
Arguments: step budget, cursor `i`, `term`, `iskeyword`, standard output.
Returns the cursor and the output at loop exit. -/
def bulletLoop (allwords : List String) :
    Nat → Int → String → Bool → String → Except Failure (Int × String)
  | 0, _, _, _, out => .error ⟨.outOfFuel, out⟩
  | fuel + 1, i, term, iskeyword, out =>
    if isBullet term = false then
      let scan := keywordScan term keywords (out, iskeyword)
      if scan.2 then
        .ok (i, scan.1)                       -- break
      else
        let out2 := scan.1 ++ " " ++ term ++ " "
        let i1 := i + 1
        if toSizeT i1 ≥ allwords.length then
          .ok (i1 - 1, out2)                  -- i--; break
        else
          match vectorAt allwords i1 with
          | none => .error ⟨.outOfRange, out2⟩
          | some word => bulletLoop allwords fuel i1 (c_str word) scan.2 out2
    else
      .ok (i, out)

/-- The loop `for(int i=0;i<allwords.size();i++)` of lines 183-248.
Arguments: step budget, cursor `i` at the loop test, standard output.
Returns the output at loop exit. -/
def printLoop (allwords : List String) : Nat → Int → String → Except Failure String
  | 0, _, out => .error ⟨.outOfFuel, out⟩
  | fuel + 1, i, out =>
    if toSizeT i < allwords.length then
      match vectorAt allwords i with
      | none => .error ⟨.outOfRange, out⟩
      | some word =>
        let term := c_str word
        if isTitle term then
          printLoop allwords fuel (i + 1) (out ++ term ++ "\n")
        else if isBullet term then
          let out1 := out ++ "\n" ++ term
          let i1 := i + 1
          if toSizeT i1 < allwords.length then
            match vectorAt allwords i1 with
            | none => .error ⟨.outOfRange, out1⟩
            | some word1 =>
              match bulletLoop allwords (allwords.length + 1) i1 (c_str word1) false out1 with
              | .error e => .error e
              | .ok (i2, out2) =>
                -- cout << endl; i--; and the i++ of the for statement
                printLoop allwords fuel (i2 - 1 + 1) (out2 ++ "\n")
          else
            -- i--; continue; and the i++ of the for statement
            printLoop allwords fuel (i1 - 1 + 1) out1
        else
          printLoop allwords fuel (i + 1) (out ++ term ++ " ")
    else
      .ok out

/-- The second half of `PrintCV` on a given vector `allwords`: the text on standard
output afterwards. Each pass of the outer loop ends with the cursor further
than it started, so `allwords.size() + 1` steps are enough. -/
def structure_words (allwords : List String) (out : String) : Except Failure String :=
  printLoop allwords (allwords.length + 1) 0 out

/-- The function `PrintCV()` on the global `letters`, with the global `allwords`
empty at the call. -/
def PrintCV (letters : List String) (out : String) : Except Failure String :=
  structure_words (assembleWords letters) out

/-! ## ReadCV: the content-stream interpreter (lines 41-149) -/

/-- A `PdfVariant`, as far as `ReadCV` tells its data types apart. -/
inductive PdfVariant where
  /-- A numeric value; the interpreter never reads it. -/
  | number (n : Int)
  | name (n : String)
  /-- A literal string, `IsString()`. -/
  | string (s : String)
  /-- A hexadecimal string, `IsHexString()`. -/
  | hexString (s : String)
  | array (elems : List PdfVariant)
  /-- Any other data type (boolean, null, dictionary, reference, ...). -/
  | other

/-- Modelled from the spec: `PdfVariant::GetString` is library code outside the
embedded source; the spec requires the operand to be a string ("must be a
string") and says nothing else, so the accessor yields the content of a string or
hexadecimal string and raises `ePdfError_InvalidDataType` on any other type. -/
def PdfVariant.GetString : PdfVariant → Except EPdfError String
  | .string s => .ok s
  | .hexString s => .ok s
  | _ => .error .InvalidDataType

/-- Modelled from the spec: `PdfVariant::GetName` is library code outside the
embedded source; the spec calls the operand the font name and says nothing else,
so the accessor yields the name of a name operand and raises
`ePdfError_InvalidDataType` on any other type. -/
def PdfVariant.GetName : PdfVariant → Except EPdfError String
  | .name n => .ok n
  | _ => .error .InvalidDataType

/-- Modelled from the spec: `PdfVariant::GetArray` is library code outside the
embedded source; the spec calls the top operand an array and says nothing else,
so the accessor yields the elements of an array operand and raises
`ePdfError_InvalidDataType` on any other type. -/
def PdfVariant.GetArray : PdfVariant → Except EPdfError (List PdfVariant)
  | .array elems => .ok elems
  | _ => .error .InvalidDataType

/-- The test `array[i].IsString() || array[i].IsHexString()` of line 136. -/
def PdfVariant.isStringOrHex : PdfVariant → Bool
  | .string _ => true
  | .hexString _ => true
  | _ => false

/-- One event of `PdfContentsTokenizer::ReadNext`: the `type` with its payload. -/
inductive Token where
  /-- The type `ePdfContentsType_Variant` with `var`. -/
  | variant (var : PdfVariant)
  /-- The type `ePdfContentsType_Keyword` with `token`. -/
  | keyword (token : String)
  /-- Any other value of `EPdfContentsType`. -/
  | imageData

/-- A resource object, as returned by `PdfPage::GetFromResources`. -/
structure PdfObject where
  ref : Nat
  deriving DecidableEq, Repr

/-- A font of the document's font cache. -/
structure PdfFont where
  id : Nat
  deriving DecidableEq, Repr

/-- A page: its font resources and the events its content stream tokenizes to. -/
structure PdfPage where
  /-- The lookup `page->GetFromResources(PdfName("Font"), fontName)`; `none` is the
  null pointer. -/
  GetFromResources : String → Option PdfObject
  /-- The events `tokenizer.ReadNext` yields until it returns false. -/
  tokens : List Token

/-- A loaded document. -/
structure PdfMemDocument where
  /-- The call `document->GetFont(pFont)`; `none` is the null pointer. -/
  GetFont : PdfObject → Option PdfFont
  /-- The call `txtfont->GetEncoding()->ConvertToUnicode(rString,txtfont)` followed by
  `GetStringUtf8()`. -/
  ConvertToUnicode : PdfFont → String → String
  /-- The pages `GetPage(0)` ... `GetPage(GetPageCount()-1)`. -/
  pages : List PdfPage

/-- The variables `ReadCV` works on: its locals `istext`, `txtfont`, `varstack`, the
global `letters`, and standard output. The head of `varstack` is the top. -/
structure ReadState where
  istext : Bool
  txtfont : Option PdfFont
  varstack : List PdfVariant
  letters : List String
  stdout : String

/-- The call `varstack.top()`. -/
def stackTop (s : ReadState) : Except Failure PdfVariant :=
  match s.varstack with
  | [] => .error ⟨.emptyStack, s.stdout⟩
  | v :: _ => .ok v

/-- The call `varstack.pop()`. -/
def stackPop (s : ReadState) : Except Failure ReadState :=
  match s.varstack with
  | [] => .error ⟨.emptyStack, s.stdout⟩
  | _ :: below => .ok { s with varstack := below }

/-- The loop `while( !varstack.empty() ) varstack.pop();` over the stack content. -/
def clearStack : List PdfVariant → List PdfVariant
  | [] => []
  | _ :: below => clearStack below

/-- A value obtained from a `PdfVariant` accessor, or the `PdfError` it throws. -/
def raising {α : Type} (s : ReadState) : Except EPdfError α → Except Failure α
  | .ok a => .ok a
  | .error code => .error ⟨.pdfError code, s.stdout⟩

/-- The function `TextProcessor` (lines 30-34): dereference `txtfont`, convert the
string and push its `c_str()` onto `letters`. -/
def TextProcessor (document : PdfMemDocument) (rString : String) (s : ReadState) :
    Except Failure ReadState :=
  match s.txtfont with
  | none => .error ⟨.nullFont, s.stdout⟩
  | some font =>
    .ok { s with letters := s.letters ++ [c_str (document.ConvertToUnicode font rString)] }

/-- The loop of lines 134-140 over the array elements still to be visited: string
and hexadecimal-string elements go through `TextProcessor`, every other element is
passed over. -/
def showArray (document : PdfMemDocument) : List PdfVariant → ReadState → Except Failure ReadState
  | [], s => .ok s
  | elem :: rest, s =>
    if elem.isStringOrHex then do
      let str ← raising s elem.GetString
      let s1 ← TextProcessor document str s
      showArray document rest s1
    else
      showArray document rest s

/-- The block `if(istext) { ... }` of lines 78-142 for the keyword `token`. A
`continue` and the end of the block both lead to the next `ReadNext`. -/
def textOperator (document : PdfMemDocument) (page : PdfPage) (token : String)
    (s : ReadState) : Except Failure ReadState :=
  if token = "Tf" then
    if s.varstack.length < 2 then
      .ok { s with
        stdout := s.stdout ++ "WARNING: Expects two arguments for 'Tf', ignoring\n"
        txtfont := none }
    else do
      let s1 ← stackPop s
      let top ← stackTop s1
      let fontName ← raising s1 top.GetName
      match page.GetFromResources fontName with
      | none => .error ⟨.pdfError .InvalidHandle, s1.stdout⟩
      | some pFont => .ok { s1 with txtfont := document.GetFont pFont }
  else if token = "Tj" ∨ token = "'" then
    if s.varstack.length < 1 then
      .ok { s with
        stdout := s.stdout ++ "WARNING: Expects one argument for '" ++ token ++ "', ignoring\n" }
    else do
      let top ← stackTop s
      let str ← raising s top.GetString
      let s1 ← TextProcessor document str s
      stackPop s1
  else if token = "\"" then
    if s.varstack.length < 3 then
      .ok { s with
        stdout := s.stdout ++ "WARNING: Expects three arguments for '" ++ token ++ "', ignoring\n"
        varstack := clearStack s.varstack }
    else do
      let s0 := { s with stdout := s.stdout ++ "[      \":    ]\n" }
      let top ← stackTop s0
      let str ← raising s0 top.GetString
      let s1 ← TextProcessor document str s0
      let s2 ← stackPop s1
      let s3 ← stackPop s2
      stackPop s3
  else if token = "TJ" then
    if s.varstack.length < 3 then
      .ok { s with
        stdout := s.stdout ++ "WARNING: Expects one argument for '" ++ token ++ "', ignoring\n" }
    else do
      let top ← stackTop s
      let array ← raising s top.GetArray
      let s1 ← stackPop s
      showArray document array s1
  else
    .ok s

/-- The chain `if ... else if ... else if` of lines 62-76 for the keyword `token`. -/
def scopeOperator (token : String) (s : ReadState) : ReadState :=
  if token = "l" ∨ token = "m" then
    { s with varstack := clearStack s.varstack }
  else if token = "BT" then
    { s with istext := true }
  else if token = "ET" then
    if s.istext = false then
      { s with stdout := s.stdout ++ "WARNING: Found ET without BT!\n" }
    else
      s
  else
    s

/-- The body of `case ePdfContentsType_Keyword` (lines 62-143). -/
def keywordStep (document : PdfMemDocument) (page : PdfPage) (token : String)
    (s : ReadState) : Except Failure ReadState :=
  let s1 := scopeOperator token s
  if s1.istext then textOperator document page token s1 else .ok s1

/-- The body of the loop `while(tokenizer.ReadNext(type,token,var))`: the `switch`
of lines 56-147 on one event. -/
def tokenStep (document : PdfMemDocument) (page : PdfPage) (t : Token)
    (s : ReadState) : Except Failure ReadState :=
  match t with
  | .variant var => .ok { s with varstack := var :: s.varstack }
  | .keyword token => keywordStep document page token s
  | .imageData => .error ⟨.pdfError .InternalLogic, s.stdout⟩

/-- The loop `while(tokenizer.ReadNext(type,token,var))` over the events still to
be read. -/
def readLoop (document : PdfMemDocument) (page : PdfPage) :
    List Token → ReadState → Except Failure ReadState
  | [], s => .ok s
  | t :: rest, s =>
    match tokenStep document page t s with
    | .error f => .error f
    | .ok s1 => readLoop document page rest s1

/-- The locals of `ReadCV` at its start (lines 49-52), with the globals as the
caller left them. -/
def initialState (letters : List String) (out : String) : ReadState :=
  { istext := false, txtfont := none, varstack := [], letters := letters, stdout := out }

/-- The function `ReadCV(document, page)`: the globals `letters` and standard
output after the page. -/
def ReadCV (document : PdfMemDocument) (page : PdfPage) (letters : List String)
    (out : String) : Except Failure (List String × String) :=
  match readLoop document page page.tokens (initialState letters out) with
  | .error f => .error f
  | .ok s => .ok (s.letters, s.stdout)

/-- The loop `for(int i=0;i<pCount;i++)` of `PageIterator` over the pages still to
be read. -/
def pageLoop (document : PdfMemDocument) :
    List PdfPage → List String → String → Except Failure (List String × String)
  | [], letters, out => .ok (letters, out)
  | page :: rest, letters, out =>
    match ReadCV document page letters out with
    | .error f => .error f
    | .ok (letters1, out1) => pageLoop document rest letters1 out1

/-- The function `PageIterator` on a loaded document: every page through `ReadCV`,
then `PrintCV`. Returns standard output at its end. -/
def PageIterator (document : PdfMemDocument) : Except Failure String :=
  match pageLoop document document.pages [] "" with
  | .error f => .error f
  | .ok (letters, out) => PrintCV letters out

/-- How the process ends. -/
inductive ExitStatus where
  /-- The function `main` returned: `none` after a complete run, `some code` from the
  handler `catch( PdfError & eCode )`. -/
  | returned (code : Option EPdfError)
  /-- The function `main` did not return: undefined behaviour or an exception without
  a handler. -/
  | notReturned (cause : Abort)
  deriving DecidableEq, Repr

/-- What the process leaves behind: the text on standard output and its end. -/
structure ProcessResult where
  stdout : String
  status : ExitStatus
  deriving DecidableEq, Repr

/-- The function `main` called with one argument, on the document loaded from it
(lines 280-285). -/
def main (document : PdfMemDocument) : ProcessResult :=
  match PageIterator document with
  | .ok out => ⟨out, .returned none⟩
  | .error ⟨.pdfError code, out⟩ => ⟨out, .returned (some code)⟩
  | .error ⟨cause, out⟩ => ⟨out, .notReturned cause⟩

/-! ## Reading aids for the two halves of PrintCV -/

/-- One pass of the loop `for(int i=0;i<allwords.size();i++)`: the body of lines
185-247 run with the cursor at `i`, followed by the `i++` of the for statement.
Returns the cursor at the next loop test and the output. `printLoop` is the
iteration of this function (`printLoop_succ`). -/
def printStep (allwords : List String) (i : Int) (out : String) :
    Except Failure (Int × String) :=
  match vectorAt allwords i with
  | none => .error ⟨.outOfRange, out⟩
  | some word =>
    let term := c_str word
    if isTitle term then
      .ok (i + 1, out ++ term ++ "\n")
    else if isBullet term then
      let out1 := out ++ "\n" ++ term
      let i1 := i + 1
      if toSizeT i1 < allwords.length then
        match vectorAt allwords i1 with
        | none => .error ⟨.outOfRange, out1⟩
        | some word1 =>
          match bulletLoop allwords (allwords.length + 1) i1 (c_str word1) false out1 with
          | .error e => .error e
          | .ok (i2, out2) => .ok (i2 - 1 + 1, out2 ++ "\n")
      else
        .ok (i1 - 1 + 1, out1)
    else
      .ok (i + 1, out ++ term ++ " ")

/-- The reference word list of a fragment sequence, in the words of the
specification: split the sequence at the fragments equal to one blank, concatenate
the fragments of each run between them, and drop the empty results. -/
def referenceWords (fragments : List String) : List String :=
  ((fragments.splitOn " ").map String.join).filter (fun word => word ≠ "")

/-! ## The word assembler -/

/-- Every word the loop pushes is non-empty, so the words of `allwords` stay
non-empty when they were so before the loop. -/
theorem wordLoop_nonempty (letters : List String) :
    ∀ (wordstream : String) (allwords : List String),
      (∀ w ∈ allwords, w ≠ "") →
      ∀ w ∈ (wordLoop letters wordstream allwords).2, w ≠ "" := by
  induction letters with
  | nil =>
    intro wordstream allwords hall w hw
    exact hall w hw
  | cons letter rest ih =>
    intro wordstream allwords hall w hw
    unfold wordLoop at hw
    by_cases hl : letter = " "
    · simp only [hl, ne_eq, not_true_eq_false, if_false, if_true] at hw
      by_cases hword : wordstream = ""
      · simp only [hword, ne_eq, not_true_eq_false, if_false] at hw
        exact ih "" allwords hall w hw
      · simp only [ne_eq, hword, not_false_eq_true, if_true] at hw
        refine ih "" (allwords ++ [wordstream]) ?_ w hw
        intro v hv
        rcases List.mem_append.mp hv with hv | hv
        · exact hall v hv
        · rw [List.mem_singleton.mp hv]
          exact hword
    · simp only [ne_eq, hl, not_false_eq_true, if_true] at hw
      exact ih (wordstream ++ letter) allwords hall w hw

/-- C1 (the code at the failing input): the fragments of "Hello World" without a
closing blank fragment give the single word "Hello"; the accumulated "World" is
never pushed, so the result is not the word sequence "Hello", "World". -/
theorem C1_last_word_dropped :
    assembleWords ["H", "e", "l", "l", "o", " ", "W", "o", "r", "l", "d"] = ["Hello"] ∧
    assembleWords ["H", "e", "l", "l", "o", " ", "W", "o", "r", "l", "d"] ≠ ["Hello", "World"] ∧
    (wordLoop ["H", "e", "l", "l", "o", " ", "W", "o", "r", "l", "d"] "" []).1 = "World" := by
  decide

/-- C10: for every fragment sequence, every word the word assembler emits is a
non-empty string. -/
theorem C10_words_nonempty (letters : List String) (w : String)
    (hw : w ∈ assembleWords letters) : w ≠ "" :=
  wordLoop_nonempty letters "" [] (fun _ h => absurd h (List.not_mem_nil _)) w hw

/-- C10 at fragments with leading, doubled and trailing blanks and an empty
fragment. -/
theorem C10_words_nonempty_witness :
    assembleWords [" ", "a", "", "b", " ", " ", "c", " "] = ["ab", "c"] ∧
    "ab" ∈ assembleWords [" ", "a", "", "b", " ", " ", "c", " "] ∧ "ab" ≠ "" :=
  ⟨by decide, by decide,
    C10_words_nonempty [" ", "a", "", "b", " ", " ", "c", " "] "ab" (by decide)⟩

/-! ## The document structurer -/

/-- C2: on the words "•", "Task", "one", "•", "Task", "two", "EXPERIENCE" the document
structurer writes, in this order, the bullet line of the body words "Task" and
"one" (each printed between two blanks, as line 226 does), the bullet line of the
body words "Task" and "two", and the line "EXPERIENCE" on its own; blank lines
separate them, and "EXPERIENCE" is on neither bullet line. -/
theorem C2_bullets_then_heading :
    structure_words ["•", "Task", "one", "•", "Task", "two", "EXPERIENCE"] "" =
      .ok (String.intercalate "\n"
        ["", "• Task  one ", "", "• Task  two ", "", "EXPERIENCE", ""]) := by
  rfl

/-! ## The interpreter: plain facts about its loops -/

theorem clearStack_eq_nil (stack : List PdfVariant) : clearStack stack = [] := by
  induction stack with
  | nil => rfl
  | cons v below ih => simpa [clearStack] using ih

/-- Reading a sequence of events is reading its first part, then the rest from
the state reached. -/
theorem readLoop_append (document : PdfMemDocument) (page : PdfPage) (pre post : List Token) :
    ∀ s : ReadState, readLoop document page (pre ++ post) s =
      match readLoop document page pre s with
      | .error f => .error f
      | .ok s1 => readLoop document page post s1 := by
  induction pre with
  | nil => intro s; rfl
  | cons t rest ih =>
    intro s
    simp only [List.cons_append, readLoop]
    cases tokenStep document page t s with
    | error f => rfl
    | ok s1 => exact ih s1

/-- Reading a sequence of pages is reading its first part, then the rest from the
globals reached. -/
theorem pageLoop_append (document : PdfMemDocument) (before after : List PdfPage) :
    ∀ (letters : List String) (out : String),
      pageLoop document (before ++ after) letters out =
        match pageLoop document before letters out with
        | .error f => .error f
        | .ok (letters1, out1) => pageLoop document after letters1 out1 := by
  induction before with
  | nil => intro letters out; rfl
  | cons page rest ih =>
    intro letters out
    simp only [List.cons_append, pageLoop]
    cases ReadCV document page letters out with
    | error f => rfl
    | ok r => exact ih r.1 r.2

/-- With a font selected, the array loop appends the conversion of each string or
hexadecimal-string element, in order, and changes nothing else. -/
theorem showArray_font (document : PdfMemDocument) (font : PdfFont) (elems : List PdfVariant) :
    ∀ s : ReadState, s.txtfont = some font →
      showArray document elems s = .ok { s with
        letters := s.letters ++
          (elems.filterMap (fun e => e.GetString.toOption)).map
            (fun str => c_str (document.ConvertToUnicode font str)) } := by
  induction elems with
  | nil => intro s _; simp [showArray]
  | cons e rest ih =>
    intro s hs
    cases e <;>
      simp [showArray, PdfVariant.isStringOrHex, PdfVariant.GetString, raising, TextProcessor,
        hs, ih, Except.toOption, bind, Except.bind]

/-! ## The interpreter: text operators -/

/-- C3: from the initial state, the events BT, name F1, number 12, Tf, string
"Hello", Tj, ET on a page whose resources hold the font F1 are read to the end
without error and leave exactly one fragment, the conversion of "Hello" under
that font. -/
theorem C3_hello_one_fragment (document : PdfMemDocument) (page : PdfPage)
    (pFont : PdfObject) (font : PdfFont)
    (htokens : page.tokens =
      [.keyword "BT", .variant (.name "F1"), .variant (.number 12), .keyword "Tf",
        .variant (.string "Hello"), .keyword "Tj", .keyword "ET"])
    (hres : page.GetFromResources "F1" = some pFont)
    (hfont : document.GetFont pFont = some font) :
    ReadCV document page [] "" =
      .ok ([c_str (document.ConvertToUnicode font "Hello")], "") := by
  simp [ReadCV, htokens, readLoop, tokenStep, keywordStep, scopeOperator, textOperator,
    initialState, stackPop, stackTop, raising, PdfVariant.GetName, PdfVariant.GetString,
    TextProcessor, hres, hfont, bind, Except.bind]

/-- C3 on a document whose encoding conversion is the identity: the fragment is
"Hello". -/
theorem C3_hello_one_fragment_witness :
    ReadCV ⟨fun o => some ⟨o.ref⟩, fun _ str => str, []⟩
      ⟨fun n => if n = "F1" then some ⟨7⟩ else none,
        [.keyword "BT", .variant (.name "F1"), .variant (.number 12), .keyword "Tf",
          .variant (.string "Hello"), .keyword "Tj", .keyword "ET"]⟩ [] "" =
      .ok (["Hello"], "") :=
  C3_hello_one_fragment ⟨fun o => some ⟨o.ref⟩, fun _ str => str, []⟩
    ⟨fun n => if n = "F1" then some ⟨7⟩ else none, _⟩ ⟨7⟩ ⟨7⟩ rfl rfl rfl

/-- C4: inside a text object, with a font selected and at least three operands of
which the top one is an array, TJ appends the conversions of the array's string
and hexadecimal-string elements, in array order and nothing for any other
element, pops the array and nothing else, and leaves the rest of the state as
it was. -/
theorem C4_TJ_decodes_string_elements (document : PdfMemDocument) (page : PdfPage)
    (s : ReadState) (font : PdfFont) (elems : List PdfVariant) (second third : PdfVariant)
    (below : List PdfVariant)
    (htext : s.istext = true) (hfont : s.txtfont = some font)
    (hstack : s.varstack = .array elems :: second :: third :: below) :
    tokenStep document page (.keyword "TJ") s = .ok { s with
      varstack := second :: third :: below
      letters := s.letters ++
        (elems.filterMap (fun e => e.GetString.toOption)).map
          (fun str => c_str (document.ConvertToUnicode font str)) } := by
  obtain ⟨istext, txtfont, varstack, letters, out⟩ := s
  simp only at htext hfont hstack
  subst htext hfont hstack
  have hlen : ¬ (below.length + 1 + 1 + 1 < 3) := by omega
  simp [tokenStep, keywordStep, scopeOperator, textOperator, stackTop, stackPop, raising,
    PdfVariant.GetArray, bind, Except.bind, hlen, showArray_font document font elems]

/-- C4 on the array [(Hel) -120 <lo> 35 /X] under an identity encoding: the two
string elements are appended in order, the numbers and the name give nothing,
and the two operands under the array stay on the stack. -/
theorem C4_TJ_decodes_string_elements_witness :
    tokenStep ⟨fun o => some ⟨o.ref⟩, fun _ str => str, []⟩ ⟨fun _ => none, []⟩
      (.keyword "TJ")
      ⟨true, some ⟨1⟩,
        [.array [.string "Hel", .number (-120), .hexString "lo", .number 35, .name "X"],
          .number 1, .number 2],
        ["x"], ""⟩ =
      .ok ⟨true, some ⟨1⟩, [.number 1, .number 2], ["x", "Hel", "lo"], ""⟩ :=
  C4_TJ_decodes_string_elements ⟨fun o => some ⟨o.ref⟩, fun _ str => str, []⟩
    ⟨fun _ => none, []⟩
    ⟨true, some ⟨1⟩,
      [.array [.string "Hel", .number (-120), .hexString "lo", .number 35, .name "X"],
        .number 1, .number 2],
      ["x"], ""⟩
    ⟨1⟩ _ _ _ [] rfl rfl rfl

/-! ## The interpreter: no access to an empty stack -/

theorem TextProcessor_error (document : PdfMemDocument) (str : String) (s : ReadState)
    (f : Failure) (h : TextProcessor document str s = .error f) : f.cause = .nullFont := by
  unfold TextProcessor at h
  cases hf : s.txtfont with
  | none => simp [hf] at h; rw [← h]
  | some font => simp [hf] at h

theorem TextProcessor_varstack (document : PdfMemDocument) (str : String) (s s1 : ReadState)
    (h : TextProcessor document str s = .ok s1) : s1.varstack = s.varstack := by
  unfold TextProcessor at h
  cases hf : s.txtfont with
  | none => simp [hf] at h
  | some font => simp [hf] at h; rw [← h]

theorem raising_error {α : Type} (s : ReadState) (r : Except EPdfError α) (f : Failure)
    (h : raising s r = .error f) : ∃ code, f.cause = .pdfError code := by
  cases r with
  | ok a => simp [raising] at h
  | error code => simp [raising] at h; exact ⟨code, by rw [← h]⟩

theorem showArray_error (document : PdfMemDocument) (elems : List PdfVariant) :
    ∀ (s : ReadState) (f : Failure), showArray document elems s = .error f →
      f.cause ≠ .emptyStack := by
  induction elems with
  | nil => intro s f h; simp [showArray] at h
  | cons e rest ih =>
    intro s f h
    unfold showArray at h
    split at h
    · simp only [bind, Except.bind] at h
      split at h
      · rename_i f1 hr
        obtain ⟨code, hc⟩ := raising_error _ _ _ hr
        cases h; rw [hc]; simp
      · split at h
        · rename_i f1 ht
          have := TextProcessor_error _ _ _ _ ht
          cases h; rw [this]; simp
        · exact ih _ _ h
    · exact ih _ _ h
theorem stackTop_cons (s : ReadState) (v : PdfVariant) (below : List PdfVariant)
    (h : s.varstack = v :: below) : stackTop s = .ok v := by
  simp [stackTop, h]

theorem stackPop_cons (s : ReadState) (v : PdfVariant) (below : List PdfVariant)
    (h : s.varstack = v :: below) : stackPop s = .ok { s with varstack := below } := by
  simp [stackPop, h]

theorem textOperator_error (document : PdfMemDocument) (page : PdfPage) (token : String)
    (s : ReadState) (f : Failure) (h : textOperator document page token s = .error f) :
    f.cause ≠ .emptyStack := by
  obtain ⟨istext, txtfont, varstack, letters, out⟩ := s
  unfold textOperator at h
  split at h
  · -- Tf
    split at h
    · simp at h
    · rename_i hlen
      obtain _ | ⟨size, _ | ⟨fontName, below⟩⟩ := varstack
      · simp at hlen
      · simp at hlen
      · simp only [stackPop, stackTop, bind, Except.bind] at h
        split at h
        · rename_i f1 hr
          obtain ⟨code, hc⟩ := raising_error _ _ _ hr
          cases h; rw [hc]; simp
        · split at h
          · cases h; simp
          · simp at h
  · split at h
    · -- Tj, '
      split at h
      · simp at h
      · rename_i hlen
        obtain _ | ⟨top, below⟩ := varstack
        · simp at hlen
        · simp only [stackTop, bind, Except.bind] at h
          split at h
          · rename_i f1 hr
            obtain ⟨code, hc⟩ := raising_error _ _ _ hr
            cases h; rw [hc]; simp
          · split at h
            · rename_i f1 ht
              have := TextProcessor_error _ _ _ _ ht
              cases h; rw [this]; simp
            · rename_i s1 ht
              have hv := TextProcessor_varstack _ _ _ _ ht
              rw [stackPop_cons s1 top below hv] at h
              simp at h
    · split at h
      · -- "
        split at h
        · simp at h
        · rename_i hlen
          obtain _ | ⟨top, _ | ⟨second, _ | ⟨third, below⟩⟩⟩ := varstack
          · simp at hlen
          · simp at hlen
          · simp at hlen
          · simp only [stackTop, bind, Except.bind] at h
            split at h
            · rename_i f1 hr
              obtain ⟨code, hc⟩ := raising_error _ _ _ hr
              cases h; rw [hc]; simp
            · split at h
              · rename_i f1 ht
                have := TextProcessor_error _ _ _ _ ht
                cases h; rw [this]; simp
              · rename_i s1 ht
                have hv := TextProcessor_varstack _ _ _ _ ht
                rw [stackPop_cons s1 top _ hv] at h
                simp [stackPop] at h
      · split at h
        · -- TJ
          split at h
          · simp at h
          · rename_i hlen
            obtain _ | ⟨top, below⟩ := varstack
            · simp at hlen
            · simp only [stackTop, stackPop, bind, Except.bind] at h
              split at h
              · rename_i f1 hr
                obtain ⟨code, hc⟩ := raising_error _ _ _ hr
                cases h; rw [hc]; simp
              · exact showArray_error _ _ _ _ h
        · simp at h

theorem tokenStep_error (document : PdfMemDocument) (page : PdfPage) (t : Token)
    (s : ReadState) (f : Failure) (h : tokenStep document page t s = .error f) :
    f.cause ≠ .emptyStack := by
  cases t with
  | variant var => simp [tokenStep] at h
  | imageData => simp [tokenStep] at h; rw [← h]; simp
  | keyword token =>
    simp only [tokenStep, keywordStep] at h
    split at h
    · exact textOperator_error _ _ _ _ _ h
    · simp at h

/-- C6: whatever the events and whatever the state they are read from, the run
never ends in a `top()` or `pop()` on an empty operand stack: every such call of
Tf, Tj, ', " and TJ comes after a size test that covers it, and the clearing loop
of l and m pops only while the stack is not empty. -/
theorem C6_no_empty_stack_access (document : PdfMemDocument) (page : PdfPage)
    (tokens : List Token) :
    ∀ (s : ReadState) (out : String),
      readLoop document page tokens s ≠ .error ⟨.emptyStack, out⟩ := by
  induction tokens with
  | nil => intro s out h; simp [readLoop] at h
  | cons t rest ih =>
    intro s out h
    unfold readLoop at h
    split at h
    · rename_i f hstep
      have hcause := tokenStep_error document page t s f hstep
      cases h
      exact hcause rfl
    · exact ih _ out h

/-! ## The interpreter: warnings -/

/-- C5: inside a text object, an operator that finds fewer operands than it tests
for writes its warning and the run goes on with the next event: no fragment is
appended, the stack stays as it is except that " empties it, and the font stays
as it is except that Tf sets it to null. -/
theorem C5_too_few_operands (document : PdfMemDocument) (page : PdfPage) (s : ReadState)
    (rest : List Token) (htext : s.istext = true) :
    (s.varstack.length < 2 →
      readLoop document page (.keyword "Tf" :: rest) s =
        readLoop document page rest { s with
          txtfont := none
          stdout := s.stdout ++ "WARNING: Expects two arguments for 'Tf', ignoring\n" }) ∧
    (s.varstack.length < 1 →
      readLoop document page (.keyword "Tj" :: rest) s =
        readLoop document page rest { s with
          stdout := s.stdout ++ "WARNING: Expects one argument for 'Tj', ignoring\n" }) ∧
    (s.varstack.length < 1 →
      readLoop document page (.keyword "'" :: rest) s =
        readLoop document page rest { s with
          stdout := s.stdout ++ "WARNING: Expects one argument for ''', ignoring\n" }) ∧
    (s.varstack.length < 3 →
      readLoop document page (.keyword "\"" :: rest) s =
        readLoop document page rest { s with
          varstack := []
          stdout := s.stdout ++ "WARNING: Expects three arguments for '\"', ignoring\n" }) ∧
    (s.varstack.length < 3 →
      readLoop document page (.keyword "TJ" :: rest) s =
        readLoop document page rest { s with
          stdout := s.stdout ++ "WARNING: Expects one argument for 'TJ', ignoring\n" }) := by
  obtain ⟨istext, txtfont, varstack, letters, out⟩ := s
  simp only at htext
  subst htext
  have hTj : out ++ "WARNING: Expects one argument for '" ++ "Tj" ++ "', ignoring\n" =
      out ++ "WARNING: Expects one argument for 'Tj', ignoring\n" := by
    rw [String.append_assoc, String.append_assoc]; rfl
  have hQuote : out ++ "WARNING: Expects one argument for '" ++ "'" ++ "', ignoring\n" =
      out ++ "WARNING: Expects one argument for ''', ignoring\n" := by
    rw [String.append_assoc, String.append_assoc]; rfl
  have hDQuote : out ++ "WARNING: Expects three arguments for '" ++ "\"" ++ "', ignoring\n" =
      out ++ "WARNING: Expects three arguments for '\"', ignoring\n" := by
    rw [String.append_assoc, String.append_assoc]; rfl
  have hTJ : out ++ "WARNING: Expects one argument for '" ++ "TJ" ++ "', ignoring\n" =
      out ++ "WARNING: Expects one argument for 'TJ', ignoring\n" := by
    rw [String.append_assoc, String.append_assoc]; rfl
  refine ⟨?_, ?_, ?_, ?_, ?_⟩ <;> intro hlen
  · simp [readLoop, tokenStep, keywordStep, scopeOperator, textOperator, hlen]
  · simp only [List.length_eq_zero, Nat.lt_one_iff] at hlen
    subst hlen
    simp [readLoop, tokenStep, keywordStep, scopeOperator, textOperator, hTj]
  · simp only [List.length_eq_zero, Nat.lt_one_iff] at hlen
    subst hlen
    simp [readLoop, tokenStep, keywordStep, scopeOperator, textOperator, hQuote]
  · simp [readLoop, tokenStep, keywordStep, scopeOperator, textOperator, hlen, hDQuote,
      clearStack_eq_nil]
  · simp [readLoop, tokenStep, keywordStep, scopeOperator, textOperator, hlen, hTJ]

/-- C5 in a text object with a font selected and one operand on the stack: Tf unsets
the font and keeps the operand, " drops the operand, TJ keeps everything; on the
empty stack Tj and ' keep everything. No fragment is added. -/
theorem C5_too_few_operands_witness :
    readLoop ⟨fun _ => none, fun _ str => str, []⟩ ⟨fun _ => none, []⟩ [.keyword "Tf"]
        ⟨true, some ⟨1⟩, [.number 9], ["x"], ""⟩ =
      .ok ⟨true, none, [.number 9], ["x"],
        "" ++ "WARNING: Expects two arguments for 'Tf', ignoring\n"⟩ ∧
    readLoop ⟨fun _ => none, fun _ str => str, []⟩ ⟨fun _ => none, []⟩ [.keyword "\""]
        ⟨true, some ⟨1⟩, [.number 9], ["x"], ""⟩ =
      .ok ⟨true, some ⟨1⟩, [], ["x"],
        "" ++ "WARNING: Expects three arguments for '\"', ignoring\n"⟩ ∧
    readLoop ⟨fun _ => none, fun _ str => str, []⟩ ⟨fun _ => none, []⟩ [.keyword "TJ"]
        ⟨true, some ⟨1⟩, [.number 9], ["x"], ""⟩ =
      .ok ⟨true, some ⟨1⟩, [.number 9], ["x"],
        "" ++ "WARNING: Expects one argument for 'TJ', ignoring\n"⟩ ∧
    readLoop ⟨fun _ => none, fun _ str => str, []⟩ ⟨fun _ => none, []⟩ [.keyword "Tj"]
        ⟨true, some ⟨1⟩, [], ["x"], ""⟩ =
      .ok ⟨true, some ⟨1⟩, [], ["x"],
        "" ++ "WARNING: Expects one argument for 'Tj', ignoring\n"⟩ ∧
    readLoop ⟨fun _ => none, fun _ str => str, []⟩ ⟨fun _ => none, []⟩ [.keyword "'"]
        ⟨true, some ⟨1⟩, [], ["x"], ""⟩ =
      .ok ⟨true, some ⟨1⟩, [], ["x"],
        "" ++ "WARNING: Expects one argument for ''', ignoring\n"⟩ :=
  ⟨(C5_too_few_operands _ _ ⟨true, some ⟨1⟩, [.number 9], ["x"], ""⟩ [] rfl).1 (by decide),
    (C5_too_few_operands _ _ ⟨true, some ⟨1⟩, [.number 9], ["x"], ""⟩ [] rfl).2.2.2.1
      (by decide),
    (C5_too_few_operands _ _ ⟨true, some ⟨1⟩, [.number 9], ["x"], ""⟩ [] rfl).2.2.2.2
      (by decide),
    (C5_too_few_operands _ _ ⟨true, some ⟨1⟩, [], ["x"], ""⟩ [] rfl).2.1 (by decide),
    (C5_too_few_operands _ _ ⟨true, some ⟨1⟩, [], ["x"], ""⟩ [] rfl).2.2.1 (by decide)⟩

/-- C8: outside a text object ET writes its warning and changes nothing else:
`istext` stays false, stack, font and fragments stay as they were, and no error is
raised; a BT after it sets `istext` (and, being no text operator, changes nothing
else). -/
theorem C8_ET_outside_text (document : PdfMemDocument) (page : PdfPage) (s : ReadState)
    (houtside : s.istext = false) :
    tokenStep document page (.keyword "ET") s =
      .ok { s with stdout := s.stdout ++ "WARNING: Found ET without BT!\n" } ∧
    readLoop document page [.keyword "ET", .keyword "BT"] s =
      .ok { s with
        istext := true
        stdout := s.stdout ++ "WARNING: Found ET without BT!\n" } := by
  obtain ⟨istext, txtfont, varstack, letters, out⟩ := s
  simp only at houtside
  subst houtside
  constructor <;>
    simp [readLoop, tokenStep, keywordStep, scopeOperator, textOperator]

/-- C8 from the initial state of a page. -/
theorem C8_ET_outside_text_witness :
    tokenStep ⟨fun _ => none, fun _ str => str, []⟩ ⟨fun _ => none, []⟩ (.keyword "ET")
        (initialState [] "") =
      .ok ⟨false, none, [], [], "" ++ "WARNING: Found ET without BT!\n"⟩ ∧
    readLoop ⟨fun _ => none, fun _ str => str, []⟩ ⟨fun _ => none, []⟩
        [.keyword "ET", .keyword "BT"] (initialState [] "") =
      .ok ⟨true, none, [], [], "" ++ "WARNING: Found ET without BT!\n"⟩ :=
  C8_ET_outside_text _ _ (initialState [] "") rfl

/-! ## The interpreter: fatal errors -/

/-- Inside a text object, Tf on a stack whose second operand names a font absent
from the page's resources throws `ePdfError_InvalidHandle`. -/
theorem Tf_missing_font (document : PdfMemDocument) (page : PdfPage) (s : ReadState)
    (size : PdfVariant) (fontName : String) (below : List PdfVariant)
    (htext : s.istext = true)
    (hstack : s.varstack = size :: .name fontName :: below)
    (hmissing : page.GetFromResources fontName = none) :
    tokenStep document page (.keyword "Tf") s =
      .error ⟨.pdfError .InvalidHandle, s.stdout⟩ := by
  obtain ⟨istext, txtfont, varstack, letters, out⟩ := s
  simp only at htext hstack
  subst htext hstack
  simp [tokenStep, keywordStep, scopeOperator, textOperator, stackPop, stackTop, raising,
    PdfVariant.GetName, hmissing, bind, Except.bind]

/-- C7: when the events of some page reach, inside a text object, a Tf whose second
operand names a font that the page's resources do not hold, `PageIterator` ends
with the error `ePdfError_InvalidHandle` whatever events and pages follow; `main`
returns that code, and standard output holds what it held when Tf was read, so
`PrintCV` has written nothing. -/
theorem C7_missing_font_aborts_run (document : PdfMemDocument) (before after : List PdfPage)
    (page : PdfPage) (pre post : List Token) (letters : List String) (out : String)
    (s : ReadState) (size : PdfVariant) (fontName : String) (below : List PdfVariant)
    (hpages : document.pages = before ++ page :: after)
    (htokens : page.tokens = pre ++ .keyword "Tf" :: post)
    (hbefore : pageLoop document before [] "" = .ok (letters, out))
    (hpre : readLoop document page pre (initialState letters out) = .ok s)
    (htext : s.istext = true)
    (hstack : s.varstack = size :: .name fontName :: below)
    (hmissing : page.GetFromResources fontName = none) :
    PageIterator document = .error ⟨.pdfError .InvalidHandle, s.stdout⟩ ∧
    main document = ⟨s.stdout, .returned (some .InvalidHandle)⟩ := by
  have hstep := Tf_missing_font document page s size fontName below htext hstack hmissing
  have hread : ReadCV document page letters out =
      .error ⟨.pdfError .InvalidHandle, s.stdout⟩ := by
    simp [ReadCV, htokens, readLoop_append, hpre, readLoop, hstep]
  have hiter : PageIterator document = .error ⟨.pdfError .InvalidHandle, s.stdout⟩ := by
    simp [PageIterator, hpages, pageLoop_append, hbefore, pageLoop, hread]
  exact ⟨hiter, by simp [main, hiter]⟩

/-- C7 on a document of three pages: the first shows "A" and a blank, the second
draws a warning, selects the missing font F9 and would then show "B", the third
would show "C". The run ends at Tf with only the warning on standard output. -/
theorem C7_missing_font_aborts_run_witness :
    main ⟨fun o => some ⟨o.ref⟩, fun _ str => str,
      [⟨fun n => if n = "F1" then some ⟨7⟩ else none,
          [.keyword "BT", .variant (.name "F1"), .variant (.number 12), .keyword "Tf",
            .variant (.string "A"), .keyword "Tj", .variant (.string " "), .keyword "Tj"]⟩,
        ⟨fun n => if n = "F1" then some ⟨7⟩ else none,
          [.keyword "ET", .keyword "BT", .variant (.name "F9"), .variant (.number 12),
            .keyword "Tf", .variant (.string "B"), .keyword "Tj"]⟩,
        ⟨fun n => if n = "F1" then some ⟨7⟩ else none,
          [.keyword "BT", .variant (.string "C"), .keyword "Tj"]⟩]⟩ =
      ⟨"" ++ "WARNING: Found ET without BT!\n", .returned (some .InvalidHandle)⟩ :=
  (C7_missing_font_aborts_run
    ⟨fun o => some ⟨o.ref⟩, fun _ str => str,
      [⟨fun n => if n = "F1" then some ⟨7⟩ else none,
          [.keyword "BT", .variant (.name "F1"), .variant (.number 12), .keyword "Tf",
            .variant (.string "A"), .keyword "Tj", .variant (.string " "), .keyword "Tj"]⟩,
        ⟨fun n => if n = "F1" then some ⟨7⟩ else none,
          [.keyword "ET", .keyword "BT", .variant (.name "F9"), .variant (.number 12),
            .keyword "Tf", .variant (.string "B"), .keyword "Tj"]⟩,
        ⟨fun n => if n = "F1" then some ⟨7⟩ else none,
          [.keyword "BT", .variant (.string "C"), .keyword "Tj"]⟩]⟩
    [⟨fun n => if n = "F1" then some ⟨7⟩ else none,
        [.keyword "BT", .variant (.name "F1"), .variant (.number 12), .keyword "Tf",
          .variant (.string "A"), .keyword "Tj", .variant (.string " "), .keyword "Tj"]⟩]
    [⟨fun n => if n = "F1" then some ⟨7⟩ else none,
        [.keyword "BT", .variant (.string "C"), .keyword "Tj"]⟩]
    ⟨fun n => if n = "F1" then some ⟨7⟩ else none,
      [.keyword "ET", .keyword "BT", .variant (.name "F9"), .variant (.number 12),
        .keyword "Tf", .variant (.string "B"), .keyword "Tj"]⟩
    [.keyword "ET", .keyword "BT", .variant (.name "F9"), .variant (.number 12)]
    [.variant (.string "B"), .keyword "Tj"]
    ["A", " "] ""
    ⟨true, none, [.number 12, .name "F9"], ["A", " "], "" ++ "WARNING: Found ET without BT!\n"⟩
    (.number 12) "F9" [] rfl rfl rfl rfl rfl rfl rfl).2

/-- C9 (the code at the failing inputs): showing a string inside a text object
before any font was selected, or after a Tf with too few operands has set the
font to null, reaches `txtfont->GetEncoding()` with a null `txtfont`. No `PdfError`
is thrown, so the handler of `main` is not entered and `main` does not return an
error code: the behaviour is undefined. -/
theorem C9_null_font_dereferenced :
    main ⟨fun o => some ⟨o.ref⟩, fun _ str => str,
      [⟨fun n => if n = "F1" then some ⟨7⟩ else none,
          [.keyword "BT", .variant (.string "Hello"), .keyword "Tj", .keyword "ET"]⟩]⟩ =
      ⟨"", .notReturned .nullFont⟩ ∧
    main ⟨fun o => some ⟨o.ref⟩, fun _ str => str,
      [⟨fun n => if n = "F1" then some ⟨7⟩ else none,
          [.keyword "BT", .variant (.name "F1"), .variant (.number 12), .keyword "Tf",
            .keyword "Tf", .variant (.string "Hello"), .keyword "Tj", .keyword "ET"]⟩]⟩ =
      ⟨"WARNING: Expects two arguments for 'Tf', ignoring\n", .notReturned .nullFont⟩ ∧
    main ⟨fun o => some ⟨o.ref⟩, fun _ str => str,
      [⟨fun n => if n = "F1" then some ⟨7⟩ else none,
          [.keyword "BT", .variant (.number 0), .variant (.number 0),
            .variant (.array [.number 3, .string "Hello"]), .keyword "TJ", .keyword "ET"]⟩]⟩ =
      ⟨"", .notReturned .nullFont⟩ := by
  refine ⟨?_, ?_, ?_⟩ <;> rfl

/-! ## The document structurer: the loop as an iteration of its body -/

/-- A pass of the outer loop with budget left is the loop test, the body, and the
rest of the loop from the cursor and output the body leaves. -/
theorem printLoop_succ (allwords : List String) (fuel : Nat) (i : Int) (out : String) :
    printLoop allwords (fuel + 1) i out =
      if toSizeT i < allwords.length then
        match printStep allwords i out with
        | .error e => .error e
        | .ok (i1, out1) => printLoop allwords fuel i1 out1
      else .ok out := by
  rw [printLoop, printStep]
  split
  · cases vectorAt allwords i with
    | none => rfl
    | some word =>
      simp only
      split
      · rfl
      · split
        · split
          · cases vectorAt allwords (i + 1) with
            | none => rfl
            | some word1 =>
              simp only
              cases bulletLoop allwords (allwords.length + 1) (i + 1) (c_str word1) false
                (out ++ "\n" ++ c_str word) with
              | error e => rfl
              | ok r => rfl
          · rfl
        · rfl
  · rfl

/-! ## The document structurer: cursor arithmetic -/

theorem toSizeT_natCast (n : Nat) (h : n < 2 ^ 64) : toSizeT (n : Int) = n := by
  unfold toSizeT
  omega

theorem vectorAt_natCast (allwords : List String) (n : Nat) (h : n < 2 ^ 64) :
    vectorAt allwords (n : Int) = allwords[n]? := by
  unfold vectorAt
  rw [toSizeT_natCast n h]

/-- The inner loop, started at a cursor inside the vector with enough budget, ends
without error at a cursor that is inside the vector and not before its start. -/
theorem bulletLoop_bounds (allwords : List String) (hlen : allwords.length < 2 ^ 31) :
    ∀ (d n fuel : Nat) (term : String) (iskeyword : Bool) (out : String),
      n < allwords.length → allwords.length - n ≤ d → d < fuel →
      ∃ (m : Nat) (out2 : String),
        bulletLoop allwords fuel (n : Int) term iskeyword out = .ok ((m : Int), out2) ∧
        n ≤ m ∧ m < allwords.length := by
  intro d
  induction d with
  | zero => intro n fuel term iskeyword out hn hd; omega
  | succ d ih =>
    intro n fuel term iskeyword out hn hd hfuel
    obtain ⟨fuel, rfl⟩ : ∃ k, fuel = k + 1 := ⟨fuel - 1, by omega⟩
    have hcast : (n : Int) + 1 = ((n + 1 : Nat) : Int) := by omega
    unfold bulletLoop
    by_cases hb : isBullet term = false
    · simp only [hb, if_true]
      cases hk : (keywordScan term keywords (out, iskeyword)).2 with
      | true =>
        simp only [if_true]
        exact ⟨n, _, rfl, le_refl n, hn⟩
      | false =>
        simp only [Bool.false_eq_true, if_false]
        rw [hcast, toSizeT_natCast (n + 1) (by omega), vectorAt_natCast _ (n + 1) (by omega)]
        by_cases hend : n + 1 ≥ allwords.length
        · simp only [hend, if_true]
          have hback : ((n + 1 : Nat) : Int) - 1 = (n : Int) := by omega
          rw [hback]
          exact ⟨n, _, rfl, le_refl n, hn⟩
        · simp only [hend, if_false]
          have hlt : n + 1 < allwords.length := by omega
          rw [List.getElem?_eq_getElem hlt]
          simp only
          obtain ⟨m, out2, hrun, hle, hm⟩ :=
            ih (n + 1) fuel (c_str allwords[n + 1]) false
              ((keywordScan term keywords (out, iskeyword)).1 ++ " " ++ term ++ " ")
              hlt (by omega) (by omega)
          exact ⟨m, out2, hrun, by omega, hm⟩
    · simp only [hb, if_false]
      exact ⟨n, _, rfl, le_refl n, hn⟩

/-- One pass of the outer loop with the cursor inside the vector ends without
error, with the cursor further than it was and at most at the end. -/
theorem printStep_bounds (allwords : List String) (hlen : allwords.length < 2 ^ 31)
    (n : Nat) (out : String) (hn : n < allwords.length) :
    ∃ (n1 : Nat) (out1 : String),
      printStep allwords (n : Int) out = .ok ((n1 : Int), out1) ∧
      n < n1 ∧ n1 ≤ allwords.length := by
  have hcast : (n : Int) + 1 = ((n + 1 : Nat) : Int) := by omega
  unfold printStep
  rw [vectorAt_natCast _ n (by omega), List.getElem?_eq_getElem hn]
  simp only
  by_cases ht : isTitle (c_str allwords[n]) = true
  · simp only [ht, if_true]
    rw [hcast]
    exact ⟨n + 1, _, rfl, by omega, by omega⟩
  · simp only [ht, if_false]
    by_cases hb : isBullet (c_str allwords[n]) = true
    · simp only [hb, if_true]
      rw [hcast, toSizeT_natCast (n + 1) (by omega), vectorAt_natCast _ (n + 1) (by omega)]
      have hback : ((n + 1 : Nat) : Int) - 1 + 1 = ((n + 1 : Nat) : Int) := by omega
      by_cases hnext : n + 1 < allwords.length
      · simp only [hnext, if_true]
        rw [List.getElem?_eq_getElem hnext]
        simp only
        obtain ⟨m, out2, hrun, hle, hm⟩ :=
          bulletLoop_bounds allwords hlen (allwords.length - (n + 1)) (n + 1)
            (allwords.length + 1) (c_str allwords[n + 1]) false
            (out ++ "\n" ++ c_str allwords[n]) hnext (le_refl _) (by omega)
        rw [hrun]
        simp only
        have hm1 : (m : Int) - 1 + 1 = (m : Int) := by omega
        rw [hm1]
        exact ⟨m, _, rfl, by omega, by omega⟩
      · simp only [hnext, if_false]
        rw [hback]
        exact ⟨n + 1, _, rfl, by omega, by omega⟩
    · simp only [hb, if_false]
      rw [hcast]
      exact ⟨n + 1, _, rfl, by omega, by omega⟩

/-- The outer loop, started at a cursor not beyond the end with enough budget, ends
without error. -/
theorem printLoop_terminates (allwords : List String) (hlen : allwords.length < 2 ^ 31) :
    ∀ (d n fuel : Nat) (out : String),
      n ≤ allwords.length → allwords.length - n ≤ d → d < fuel →
      ∃ out1 : String, printLoop allwords fuel (n : Int) out = .ok out1 := by
  intro d
  induction d with
  | zero =>
    intro n fuel out hn hd hfuel
    obtain ⟨fuel, rfl⟩ : ∃ k, fuel = k + 1 := ⟨fuel - 1, by omega⟩
    rw [printLoop_succ, toSizeT_natCast n (by omega)]
    have hend : ¬ n < allwords.length := by omega
    simp only [hend, if_false]
    exact ⟨out, rfl⟩
  | succ d ih =>
    intro n fuel out hn hd hfuel
    obtain ⟨fuel, rfl⟩ : ∃ k, fuel = k + 1 := ⟨fuel - 1, by omega⟩
    rw [printLoop_succ, toSizeT_natCast n (by omega)]
    by_cases hin : n < allwords.length
    · simp only [hin, if_true]
      obtain ⟨n1, out1, hstep, hlt, hle⟩ := printStep_bounds allwords hlen n out hin
      rw [hstep]
      simp only
      exact ih n1 fuel out1 hle (by omega) (by omega)
    · simp only [hin, if_false]
      exact ⟨out, rfl⟩

/-- C19: on a word vector within the range of the `int` cursor the document
structurer ends without error, so no `at` is called outside the vector and the
loops stop. The outer loop is the iteration of its body; a pass that starts with
the cursor at `n` inside the vector leaves it at some `n1` with `n < n1` and
`n1` at most the size; and the inner loop started at `n` stops at some `m` with
`n ≤ m` and `m` inside the vector, so the decrements that follow it never take
the cursor below the bullet it started from, let alone below zero. -/
theorem C19_structurer_terminates_in_range (allwords : List String) (out : String)
    (hlen : allwords.length < 2 ^ 31) :
    (∃ out1 : String, structure_words allwords out = .ok out1) ∧
    (∀ (fuel : Nat) (i : Int) (o : String),
      printLoop allwords (fuel + 1) i o =
        if toSizeT i < allwords.length then
          match printStep allwords i o with
          | .error e => .error e
          | .ok (i1, o1) => printLoop allwords fuel i1 o1
        else .ok o) ∧
    (∀ (n : Nat) (o : String), n < allwords.length →
      ∃ (n1 : Nat) (o1 : String),
        printStep allwords (n : Int) o = .ok ((n1 : Int), o1) ∧
        n < n1 ∧ n1 ≤ allwords.length) ∧
    (∀ (n : Nat) (term o : String), n < allwords.length →
      ∃ (m : Nat) (o2 : String),
        bulletLoop allwords (allwords.length + 1) (n : Int) term false o =
          .ok ((m : Int), o2) ∧
        n ≤ m ∧ m < allwords.length) := by
  refine ⟨?_, ?_, ?_, ?_⟩
  · exact printLoop_terminates allwords hlen allwords.length 0 (allwords.length + 1) out
      (Nat.zero_le _) (by omega) (by omega)
  · intro fuel i o
    exact printLoop_succ allwords fuel i o
  · intro n o hn
    exact printStep_bounds allwords hlen n o hn
  · intro n term o hn
    exact bulletLoop_bounds allwords hlen (allwords.length - n) n (allwords.length + 1)
      term false o hn (le_refl _) (by omega)

/-- C19 on a bullet whose body runs to the end of the vector: the run ends without
error, and the pass that starts at the bullet (cursor 0) leaves the cursor at 2. -/
theorem C19_structurer_terminates_in_range_witness :
    ["•", "Task", "one"].length < 2 ^ 31 ∧
    (∃ out1 : String, structure_words ["•", "Task", "one"] "" = .ok out1) ∧
    printStep ["•", "Task", "one"] 0 "" = .ok (2, "\n• Task  one \n") :=
  ⟨by decide,
    (C19_structurer_terminates_in_range ["•", "Task", "one"] "" (by decide)).1,
    by rfl⟩

/-! ## The document structurer: plain text -/

theorem join_cons (a : String) (l : List String) :
    String.join (a :: l) = a ++ String.join l := by
  rw [String.join_eq, String.join_eq]
  apply String.ext
  simp

/-- From any cursor, a tail of words that are neither titles nor bullets is
written word by word, each followed by one blank. -/
theorem printLoop_plain (allwords : List String) (hlen : allwords.length < 2 ^ 31)
    (hplain : ∀ w ∈ allwords, isTitle (c_str w) = false ∧ isBullet (c_str w) = false) :
    ∀ (d n fuel : Nat) (out : String),
      n ≤ allwords.length → allwords.length - n ≤ d → d < fuel →
      printLoop allwords fuel (n : Int) out =
        .ok (out ++ String.join ((allwords.drop n).map (fun w => c_str w ++ " "))) := by
  intro d
  induction d with
  | zero =>
    intro n fuel out hn hd hfuel
    obtain ⟨fuel, rfl⟩ : ∃ k, fuel = k + 1 := ⟨fuel - 1, by omega⟩
    rw [printLoop_succ, toSizeT_natCast n (by omega)]
    have hend : ¬ n < allwords.length := by omega
    have hdrop : allwords.drop n = [] := List.drop_eq_nil_of_le (by omega)
    simp [hend, hdrop, String.join]
  | succ d ih =>
    intro n fuel out hn hd hfuel
    obtain ⟨fuel, rfl⟩ : ∃ k, fuel = k + 1 := ⟨fuel - 1, by omega⟩
    rw [printLoop_succ, toSizeT_natCast n (by omega)]
    by_cases hin : n < allwords.length
    · have hw := hplain allwords[n] (List.getElem_mem hin)
      have hcast : (n : Int) + 1 = ((n + 1 : Nat) : Int) := by omega
      have hstep : printStep allwords (n : Int) out =
          .ok (((n + 1 : Nat) : Int), out ++ c_str allwords[n] ++ " ") := by
        unfold printStep
        rw [vectorAt_natCast _ n (by omega), List.getElem?_eq_getElem hin]
        simp only [hw.1, hw.2, Bool.false_eq_true, if_false]
        rw [hcast]
      simp only [hin, if_true, hstep]
      rw [ih (n + 1) fuel _ (by omega) (by omega) (by omega)]
      rw [List.drop_eq_getElem_cons hin, List.map_cons, join_cons]
      simp only [String.append_assoc]
    · have hdrop : allwords.drop n = [] := List.drop_eq_nil_of_le (by omega)
      simp [hin, hdrop, String.join]

/-- C18: a vector of words (C strings, within the range of the `int` cursor) none of
which holds a bullet glyph or one of the title keywords of line 187 is written
as the words in order, each followed by one blank, and nothing else: no line
break is added. -/
theorem C18_plain_words_joined (allwords : List String) (out : String)
    (hlen : allwords.length < 2 ^ 31)
    (hcstr : ∀ w ∈ allwords, c_str w = w)
    (hplain : ∀ w ∈ allwords, isTitle w = false ∧ isBullet w = false) :
    structure_words allwords out =
      .ok (out ++ String.join (allwords.map (fun w => w ++ " "))) := by
  have hplain1 : ∀ w ∈ allwords, isTitle (c_str w) = false ∧ isBullet (c_str w) = false := by
    intro w hw
    rw [hcstr w hw]
    exact hplain w hw
  have hmap : allwords.map (fun w => c_str w ++ " ") = allwords.map (fun w => w ++ " ") :=
    List.map_congr_left (fun w hw => by rw [hcstr w hw])
  have hrun := printLoop_plain allwords hlen hplain1 allwords.length 0 (allwords.length + 1)
    out (Nat.zero_le _) (by omega) (by omega)
  rw [List.drop_zero, hmap] at hrun
  exact hrun

/-- C18 on three plain words, one of them holding the keyword "Frontend", which
only the inner loop knows. -/
theorem C18_plain_words_joined_witness :
    structure_words ["Curriculum", "Frontend", "vitae"] "" =
      .ok ("" ++ String.join (["Curriculum", "Frontend", "vitae"].map (fun w => w ++ " "))) ∧
    String.join (["Curriculum", "Frontend", "vitae"].map (fun w => w ++ " ")) =
      "Curriculum Frontend vitae " :=
  ⟨C18_plain_words_joined ["Curriculum", "Frontend", "vitae"] "" (by decide) (by decide)
    (by decide), by decide⟩

/-! ## The document structurer: titles -/

/-- C11 (counterexample): the title "EDUCATION" after the plain word "Hello" is
written on the line that "Hello" started; the output has the single line
"Hello EDUCATION", so the line holding the title is not the title alone. -/
theorem C11_title_shares_line_with_plain_text :
    isTitle (c_str "EDUCATION") = true ∧
    structure_words ["Hello", "EDUCATION"] "" = .ok "Hello EDUCATION\n" ∧
    ("Hello EDUCATION\n".data.splitOn (Char.ofNat 10)).map String.mk =
      ["Hello EDUCATION", ""] :=
  ⟨by decide, by rfl, by decide⟩

/-- C11 (amended): a pass of the outer loop whose word is classified as a title
appends the word and one line break to whatever standard output holds, and
moves the cursor by one. The title is thus the end of its output line; what was
written since the last line break stays in front of it on that line. -/
theorem C11_title_ends_line (allwords : List String) (i : Int) (word out : String)
    (hword : vectorAt allwords i = some word)
    (htitle : isTitle (c_str word) = true) :
    printStep allwords i out = .ok (i + 1, out ++ c_str word ++ "\n") := by
  unfold printStep
  rw [hword]
  simp only [htitle, if_true]

/-- C11 (amended) at the title of the counterexample, after "Hello " was written. -/
theorem C11_title_ends_line_witness :
    printStep ["Hello", "EDUCATION"] 1 "Hello " =
      .ok (1 + 1, "Hello " ++ c_str "EDUCATION" ++ "\n") :=
  C11_title_ends_line ["Hello", "EDUCATION"] 1 "EDUCATION" "Hello " (by rfl) (by decide)

/-! ## The document structurer: bullet lines -/

/-- C15 (the code at the failing input): the body of the bullet runs to the end of
the vector; the cursor is decremented at line 230 and again at line 242, so the
pass of the bullet leaves it on the last word (index 2), which is then written
a second time as plain text. -/
theorem C15_last_body_word_printed_twice :
    structure_words ["•", "Task", "one"] "" = .ok "\n• Task  one \none " ∧
    printStep ["•", "Task", "one"] 0 "" = .ok (2, "\n• Task  one \n") ∧
    printStep ["•", "Task", "one"] 2 "\n• Task  one \n" = .ok (3, "\n• Task  one \none ") := by
  refine ⟨?_, ?_, ?_⟩ <;> rfl

theorem keywordScan_none (term : String) (kws : List String) (out : String) (b : Bool)
    (h : ∀ kw ∈ kws, strstr term kw = false) :
    keywordScan term kws (out, b) = (out, b) := by
  induction kws generalizing out b with
  | nil => rfl
  | cons kw rest ih =>
    have hkw : strstr term kw = false := h kw (List.mem_cons_self _ _)
    simp only [keywordScan, hkw, Bool.false_eq_true, if_false]
    exact ih out b (fun k hk => h k (List.mem_cons_of_mem _ hk))

theorem keywordScan_flag (term : String) (kws : List String) (out : String) (b : Bool) :
    (keywordScan term kws (out, b)).2 = (b || kws.any (fun kw => strstr term kw)) := by
  induction kws generalizing out b with
  | nil => simp [keywordScan]
  | cons kw rest ih =>
    cases hkw : strstr term kw with
    | true => simp [keywordScan, hkw, ih]
    | false => simp [keywordScan, hkw, ih]

theorem keywordScan_prefix (term : String) (kws : List String) (out : String) (b : Bool) :
    ∃ rest : String, (keywordScan term kws (out, b)).1 = out ++ rest := by
  induction kws generalizing out b with
  | nil => exact ⟨"", by simp [keywordScan]⟩
  | cons kw rest ih =>
    cases hkw : strstr term kw with
    | true =>
      obtain ⟨r, hr⟩ := ih (out ++ "\n") true
      refine ⟨"\n" ++ r, ?_⟩
      simp only [keywordScan, hkw, if_true, hr, String.append_assoc]
    | false =>
      obtain ⟨r, hr⟩ := ih out b
      exact ⟨r, by simp only [keywordScan, hkw, Bool.false_eq_true, if_false, hr]⟩

/-- The inner loop only appends to standard output. -/
theorem bulletLoop_prefix (allwords : List String) :
    ∀ (fuel : Nat) (i : Int) (term : String) (iskeyword : Bool) (out : String)
      (i2 : Int) (out2 : String),
      bulletLoop allwords fuel i term iskeyword out = .ok (i2, out2) →
      ∃ rest : String, out2 = out ++ rest := by
  intro fuel
  induction fuel with
  | zero => intro i term iskeyword out i2 out2 h; simp [bulletLoop] at h
  | succ fuel ih =>
    intro i term iskeyword out i2 out2 h
    unfold bulletLoop at h
    obtain ⟨r, hr⟩ := keywordScan_prefix term keywords out iskeyword
    split at h
    · simp only at h
      split at h
      · simp only [Except.ok.injEq, Prod.mk.injEq] at h
        exact ⟨r, by rw [← h.2, hr]⟩
      · split at h
        · simp only [Except.ok.injEq, Prod.mk.injEq] at h
          exact ⟨r ++ " " ++ term ++ " ", by rw [← h.2, hr]; simp only [String.append_assoc]⟩
        · split at h
          · simp at h
          · obtain ⟨r2, hr2⟩ := ih _ _ _ _ _ _ h
            exact ⟨r ++ " " ++ term ++ " " ++ r2, by
              rw [hr2, hr]; simp only [String.append_assoc]⟩
    · simp only [Except.ok.injEq, Prod.mk.injEq] at h
      exact ⟨"", by rw [← h.2]; simp⟩

/-- The inner loop started on the first of `k` body words (no bullet glyph, no
keyword) that are followed by a boundary word writes the body words, each
between two blanks, then one line break per keyword found in the boundary word
when that word holds no bullet glyph, and stops with the cursor on the boundary
word. -/
theorem bulletLoop_body (allwords : List String) (hlen : allwords.length < 2 ^ 31)
    (boundary : String) :
    ∀ (k n fuel : Nat) (word out : String),
      allwords[n]? = some word →
      (∀ (j : Nat) (w : String), n ≤ j → j < n + k → allwords[j]? = some w →
        isBullet (c_str w) = false ∧ ∀ kw ∈ keywords, strstr (c_str w) kw = false) →
      allwords[n + k]? = some boundary →
      (isBullet (c_str boundary) = true ∨ ∃ kw ∈ keywords, strstr (c_str boundary) kw = true) →
      k < fuel →
      bulletLoop allwords fuel (n : Int) (c_str word) false out =
        .ok (((n + k : Nat) : Int),
          if isBullet (c_str boundary) = true then
            out ++ String.join (((allwords.drop n).take k).map (fun w => " " ++ c_str w ++ " "))
          else
            (keywordScan (c_str boundary) keywords
              (out ++ String.join (((allwords.drop n).take k).map
                (fun w => " " ++ c_str w ++ " ")), false)).1) := by
  intro k
  induction k with
  | zero =>
    intro n fuel word out hword _ hboundary hstop hfuel
    obtain ⟨fuel, rfl⟩ : ∃ f, fuel = f + 1 := ⟨fuel - 1, by omega⟩
    have hsame : word = boundary := by
      rw [Nat.add_zero, hword] at hboundary
      exact Option.some.inj hboundary
    subst hsame
    unfold bulletLoop
    cases hb : isBullet (c_str word) with
    | true => simp [String.join]
    | false =>
      have hhit : (keywordScan (c_str word) keywords (out, false)).2 = true := by
        rw [keywordScan_flag]
        rcases hstop with hbul | ⟨kw, hkw, hin⟩
        · rw [hb] at hbul; cases hbul
        · simp only [Bool.false_or, List.any_eq_true]
          exact ⟨kw, hkw, hin⟩
      simp [hhit, String.join]
  | succ k ih =>
    intro n fuel word out hword hbody hboundary hstop hfuel
    obtain ⟨fuel, rfl⟩ : ∃ f, fuel = f + 1 := ⟨fuel - 1, by omega⟩
    have hin : n + (k + 1) < allwords.length := by
      by_contra hge
      rw [List.getElem?_eq_none (by omega)] at hboundary
      cases hboundary
    have hn : n < allwords.length := by omega
    have hnext : n + 1 < allwords.length := by omega
    have hplain := hbody n word (le_refl n) (by omega) hword
    have hcast : (n : Int) + 1 = ((n + 1 : Nat) : Int) := by omega
    have hwn : allwords[n] = word := by
      rw [List.getElem?_eq_getElem hn] at hword
      exact Option.some.inj hword
    have hrec := ih (n + 1) fuel allwords[n + 1] (out ++ " " ++ c_str word ++ " ")
      (List.getElem?_eq_getElem hnext)
      (fun j w hj1 hj2 hw => hbody j w (by omega) (by omega) hw)
      (by rw [show n + 1 + k = n + (k + 1) by omega]; exact hboundary) hstop (by omega)
    have hdrop : (allwords.drop n).take (k + 1) = word :: (allwords.drop (n + 1)).take k := by
      rw [List.drop_eq_getElem_cons hn, List.take_succ_cons, hwn]
    unfold bulletLoop
    rw [keywordScan_none _ _ _ _ hplain.2]
    simp only [hplain.1, if_true, Bool.false_eq_true, if_false]
    rw [hcast, toSizeT_natCast (n + 1) (by omega), vectorAt_natCast _ (n + 1) (by omega),
      List.getElem?_eq_getElem hnext]
    have hnotend : ¬ (n + 1 ≥ allwords.length) := by omega
    simp only [hnotend, if_false]
    rw [hrec, hdrop, List.map_cons, join_cons, show n + 1 + k = n + (k + 1) by omega]
    simp only [String.append_assoc]

/-- A pass of the outer loop on a title word appends the word and a line break. -/
theorem printStep_title (allwords : List String) (i : Int) (word out : String)
    (hword : vectorAt allwords i = some word)
    (htitle : isTitle (c_str word) = true) :
    printStep allwords i out = .ok (i + 1, out ++ c_str word ++ "\n") := by
  unfold printStep
  rw [hword]
  simp only [htitle, if_true]

/-- C16 (counterexample): the word "Frontend" stops the body of the bullet, since it
holds a keyword of line 181, and the outer loop then reads it again; but it
holds none of the three title keywords of line 187, so it is written as plain
text, followed by a blank and the next word, not as a title line. -/
theorem C16_boundary_keyword_not_a_title :
    keywords.any (fun kw => strstr (c_str "Frontend") kw) = true ∧
    isTitle (c_str "Frontend") = false ∧
    printStep ["•", "a", "Frontend", "b"] 0 "" = .ok (2, "\n• a \n\n") ∧
    printStep ["•", "a", "Frontend", "b"] 2 "\n• a \n\n" = .ok (3, "\n• a \n\nFrontend ") ∧
    structure_words ["•", "a", "Frontend", "b"] "" = .ok "\n• a \n\nFrontend b " := by
  refine ⟨by decide, by decide, ?_, ?_, ?_⟩ <;> rfl

/-- C16 (amended): when the bullet at index `b` is followed by `k` body words and
then by a boundary word (a word with a bullet glyph or with one of the five
keywords of line 181), the pass of the bullet writes the bullet line and leaves
the cursor on the boundary word, which the outer loop reads again: it is
written as a title when it holds one of the three title keywords of line 187;
otherwise it starts a new bullet line when it holds a bullet glyph; otherwise
(it holds only "PROFESSIONAL" or "Frontend") it is written as plain text. -/
theorem C16_boundary_word_read_again (allwords : List String) (b k : Nat)
    (bullet boundary out : String)
    (hlen : allwords.length < 2 ^ 31)
    (hbullet : allwords[b]? = some bullet)
    (hnotitle : isTitle (c_str bullet) = false)
    (hglyph : isBullet (c_str bullet) = true)
    (hbody : ∀ (j : Nat) (w : String), b + 1 ≤ j → j < b + 1 + k → allwords[j]? = some w →
      isBullet (c_str w) = false ∧ ∀ kw ∈ keywords, strstr (c_str w) kw = false)
    (hboundary : allwords[b + 1 + k]? = some boundary)
    (hstop : isBullet (c_str boundary) = true ∨
      ∃ kw ∈ keywords, strstr (c_str boundary) kw = true) :
    printStep allwords (b : Int) out =
      .ok (((b + 1 + k : Nat) : Int),
        (if isBullet (c_str boundary) = true then
          out ++ "\n" ++ c_str bullet ++
            String.join (((allwords.drop (b + 1)).take k).map (fun w => " " ++ c_str w ++ " "))
        else
          (keywordScan (c_str boundary) keywords
            (out ++ "\n" ++ c_str bullet ++
              String.join (((allwords.drop (b + 1)).take k).map
                (fun w => " " ++ c_str w ++ " ")), false)).1) ++ "\n") ∧
    (isTitle (c_str boundary) = true → ∀ o : String,
      printStep allwords ((b + 1 + k : Nat) : Int) o =
        .ok (((b + 1 + k : Nat) : Int) + 1, o ++ c_str boundary ++ "\n")) ∧
    (isTitle (c_str boundary) = false → isBullet (c_str boundary) = true → ∀ o : String,
      ∃ (i1 : Int) (rest : String),
        printStep allwords ((b + 1 + k : Nat) : Int) o =
          .ok (i1, o ++ "\n" ++ c_str boundary ++ rest)) ∧
    (isTitle (c_str boundary) = false → isBullet (c_str boundary) = false → ∀ o : String,
      printStep allwords ((b + 1 + k : Nat) : Int) o =
        .ok (((b + 1 + k : Nat) : Int) + 1, o ++ c_str boundary ++ " ")) := by
  have hm : b + 1 + k < allwords.length := by
    by_contra hge
    rw [List.getElem?_eq_none (by omega)] at hboundary
    cases hboundary
  have hat : vectorAt allwords ((b + 1 + k : Nat) : Int) = some boundary := by
    rw [vectorAt_natCast _ _ (by omega)]; exact hboundary
  refine ⟨?_, ?_, ?_, ?_⟩
  · have hnext : b + 1 < allwords.length := by omega
    have hcast : (b : Int) + 1 = ((b + 1 : Nat) : Int) := by omega
    have hback : ((b + 1 + k : Nat) : Int) - 1 + 1 = ((b + 1 + k : Nat) : Int) := by omega
    have hrun := bulletLoop_body allwords hlen boundary k (b + 1) (allwords.length + 1)
      allwords[b + 1] (out ++ "\n" ++ c_str bullet) (List.getElem?_eq_getElem hnext)
      hbody hboundary hstop (by omega)
    unfold printStep
    rw [vectorAt_natCast _ b (by omega), hbullet]
    simp only [hnotitle, hglyph, Bool.false_eq_true, if_false, if_true]
    rw [hcast, toSizeT_natCast (b + 1) (by omega), vectorAt_natCast _ (b + 1) (by omega),
      List.getElem?_eq_getElem hnext]
    simp only [hnext, if_true, hrun, hback]
  · intro htitle o
    exact printStep_title allwords _ boundary o hat htitle
  · intro htitle hbul o
    unfold printStep
    rw [hat]
    simp only [htitle, hbul, Bool.false_eq_true, if_false, if_true]
    have hcast : ((b + 1 + k : Nat) : Int) + 1 = ((b + 1 + k + 1 : Nat) : Int) := by omega
    rw [hcast, toSizeT_natCast _ (by omega), vectorAt_natCast _ _ (by omega)]
    by_cases hnext : b + 1 + k + 1 < allwords.length
    · simp only [hnext, if_true]
      rw [List.getElem?_eq_getElem hnext]
      simp only
      obtain ⟨m, out2, hrun, _, _⟩ :=
        bulletLoop_bounds allwords hlen (allwords.length - (b + 1 + k + 1)) (b + 1 + k + 1)
          (allwords.length + 1) (c_str allwords[b + 1 + k + 1]) false
          (o ++ "\n" ++ c_str boundary) hnext (le_refl _) (by omega)
      obtain ⟨r, hr⟩ := bulletLoop_prefix allwords _ _ _ _ _ _ _ hrun
      rw [hrun]
      exact ⟨(m : Int) - 1 + 1, r ++ "\n", by simp only [hr, String.append_assoc]⟩
    · simp only [hnext, if_false]
      exact ⟨((b + 1 + k + 1 : Nat) : Int) - 1 + 1, "", by rw [String.append_empty]⟩
  · intro htitle hbul o
    unfold printStep
    rw [hat]
    simp only [htitle, hbul, Bool.false_eq_true, if_false]

/-- C16 (amended) on the words of the counterexample: the pass of the bullet at
index 0 with one body word leaves the cursor on "Frontend" (index 2), and the
pass that reads "Frontend" again writes it as plain text. -/
theorem C16_boundary_word_read_again_witness :
    printStep ["•", "a", "Frontend", "b"] 0 "" = .ok (2, "\n• a \n\n") ∧
    printStep ["•", "a", "Frontend", "b"] 2 "x" = .ok (3, "x" ++ c_str "Frontend" ++ " ") :=
  have h := C16_boundary_word_read_again ["•", "a", "Frontend", "b"] 0 1 "•" "Frontend" ""
    (by decide) (by rfl) (by decide) (by decide)
    (by
      intro j w h1 h2 hw
      have hj : j = 1 := by omega
      subst hj
      have hwa : w = "a" := by
        simp only [List.getElem?_cons_succ, List.getElem?_cons_zero, Option.some.injEq] at hw
        exact hw.symm
      subst hwa
      decide)
    (by rfl) (Or.inr ⟨"Frontend", by decide, by decide⟩)
  ⟨h.1, h.2.2.2 (by decide) (by decide) "x"⟩

/-! ## The interpreter: text state and operands -/

/-- C12 (the code at the failing input): ET inside a text object leaves `istext`
set, so the string shown after BT ... ET without a new BT is still converted
and pushed onto `letters`. -/
theorem C12_ET_leaves_text_state :
    readLoop ⟨fun o => some ⟨o.ref⟩, fun _ str => str, []⟩ ⟨fun _ => none, []⟩
        [.keyword "BT", .keyword "ET"] (initialState [] "") =
      .ok ⟨true, none, [], [], ""⟩ ∧
    ReadCV ⟨fun o => some ⟨o.ref⟩, fun _ str => str, []⟩
        ⟨fun n => if n = "F1" then some ⟨7⟩ else none,
          [.keyword "BT", .variant (.name "F1"), .variant (.number 12), .keyword "Tf",
            .keyword "ET", .variant (.string "Hello"), .keyword "Tj"]⟩ [] "" =
      .ok (["Hello"], "") := by
  constructor <;> rfl

/-- C13 (the code at the failing input): a successful Tf on the operands 12 (top),
F1 and 5 selects the font of F1 and pops the size only; the name F1 stays on
the stack, above the 5. -/
theorem C13_Tf_leaves_font_name :
    tokenStep ⟨fun o => some ⟨o.ref⟩, fun _ str => str, []⟩
        ⟨fun n => if n = "F1" then some ⟨7⟩ else none, []⟩ (.keyword "Tf")
        ⟨true, none, [.number 12, .name "F1", .number 5], [], ""⟩ =
      .ok ⟨true, some ⟨7⟩, [.name "F1", .number 5], [], ""⟩ := by
  rfl

/-- C14: inside a text object, with a font selected and at least three operands of
which the top one is a string, the operator " appends one fragment, the
conversion of the top operand, and pops the top three operands; the operands
below stay as they were. It also writes its trace line to standard output. -/
theorem C14_quote_pops_three (document : PdfMemDocument) (page : PdfPage) (s : ReadState)
    (font : PdfFont) (top second third : PdfVariant) (below : List PdfVariant) (str : String)
    (htext : s.istext = true) (hfont : s.txtfont = some font)
    (hstack : s.varstack = top :: second :: third :: below)
    (hstring : top.GetString = .ok str) :
    tokenStep document page (.keyword "\"") s = .ok { s with
      varstack := below
      letters := s.letters ++ [c_str (document.ConvertToUnicode font str)]
      stdout := s.stdout ++ "[      \":    ]\n" } := by
  obtain ⟨istext, txtfont, varstack, letters, out⟩ := s
  simp only at htext hfont hstack
  subst htext hfont hstack
  have hlen : ¬ (below.length + 1 + 1 + 1 < 3) := by omega
  simp [tokenStep, keywordStep, scopeOperator, textOperator, stackTop, stackPop, raising,
    TextProcessor, bind, Except.bind, hlen, hstring]

/-- C14 on the operands (Hi) 2 1 above a name: one fragment, three operands popped,
the name left. -/
theorem C14_quote_pops_three_witness :
    tokenStep ⟨fun o => some ⟨o.ref⟩, fun _ str => str, []⟩ ⟨fun _ => none, []⟩
        (.keyword "\"")
        ⟨true, some ⟨1⟩, [.string "Hi", .number 2, .number 1, .name "X"], ["x"], ""⟩ =
      .ok ⟨true, some ⟨1⟩, [.name "X"], ["x", "Hi"], "" ++ "[      \":    ]\n"⟩ :=
  C14_quote_pops_three ⟨fun o => some ⟨o.ref⟩, fun _ str => str, []⟩ ⟨fun _ => none, []⟩
    ⟨true, some ⟨1⟩, [.string "Hi", .number 2, .number 1, .name "X"], ["x"], ""⟩
    ⟨1⟩ _ _ _ _ "Hi" rfl rfl rfl rfl

/-- C17: in every state, inside a text object or not, the operators l and m empty
the operand stack and change nothing else; no error is raised. -/
theorem C17_l_m_clear_stack (document : PdfMemDocument) (page : PdfPage) (s : ReadState) :
    tokenStep document page (.keyword "l") s = .ok { s with varstack := [] } ∧
    tokenStep document page (.keyword "m") s = .ok { s with varstack := [] } := by
  obtain ⟨istext, txtfont, varstack, letters, out⟩ := s
  cases istext <;>
    simp [tokenStep, keywordStep, scopeOperator, textOperator, clearStack_eq_nil]

/-! ## The word assembler against its reference -/

theorem join_append (a b : List String) :
    String.join (a ++ b) = String.join a ++ String.join b := by
  rw [String.join_eq, String.join_eq, String.join_eq]
  apply String.ext
  simp

theorem join_nil : String.join [] = "" := rfl

/-- The fragment loop on a sequence closed by a blank, in terms of the runs the
sequence splits into at its blanks: the accumulator goes in front of the first
run, every run is concatenated, the empty results are dropped. -/
theorem wordLoop_split (fragments : List String) :
    ∀ (wordstream : String) (allwords : List String),
      ∃ (run : List String) (runs : List (List String)),
        fragments.splitOn " " = run :: runs ∧
        wordLoop (fragments ++ [" "]) wordstream allwords =
          ("", allwords ++
            ((wordstream ++ String.join run) :: runs.map String.join).filter
              (fun word => word ≠ "")) := by
  induction fragments with
  | nil =>
    intro wordstream allwords
    refine ⟨[], [], rfl, ?_⟩
    by_cases hw : wordstream = ""
    · simp [wordLoop, hw, join_nil]
    · simp [wordLoop, hw, join_nil]
  | cons f rest ih =>
    intro wordstream allwords
    by_cases hf : f = " "
    · subst hf
      obtain ⟨run, runs, hsplit, hloop⟩ :=
        ih "" (if wordstream ≠ "" then allwords ++ [wordstream] else allwords)
      refine ⟨[], run :: runs, ?_, ?_⟩
      · simp only [List.splitOn] at hsplit ⊢
        rw [List.splitOnP_cons, hsplit]
        simp
      · have hstep : wordLoop ((" " :: rest) ++ [" "]) wordstream allwords =
            wordLoop (rest ++ [" "]) ""
              (if wordstream ≠ "" then allwords ++ [wordstream] else allwords) := by
          simp [wordLoop]
        rw [hstep, hloop]
        by_cases hw : wordstream = ""
        · simp [hw, join_nil]
        · simp [hw, join_nil]
    · obtain ⟨run, runs, hsplit, hloop⟩ := ih (wordstream ++ f) allwords
      refine ⟨f :: run, runs, ?_, ?_⟩
      · simp only [List.splitOn] at hsplit ⊢
        rw [List.splitOnP_cons, hsplit]
        simp [hf]
      · have hstep : wordLoop ((f :: rest) ++ [" "]) wordstream allwords =
            wordLoop (rest ++ [" "]) (wordstream ++ f) allwords := by
          simp [wordLoop, hf]
        rw [hstep, hloop, join_cons, String.append_assoc]

/-- The words pushed by the fragment loop on a sequence closed by a blank,
concatenated, are the accumulator followed by the fragments that are not a
blank. -/
theorem wordLoop_join (fragments : List String) :
    ∀ (wordstream : String) (allwords : List String),
      String.join (wordLoop (fragments ++ [" "]) wordstream allwords).2 =
        String.join allwords ++ wordstream ++
          String.join (fragments.filter (fun f => f ≠ " ")) := by
  induction fragments with
  | nil =>
    intro wordstream allwords
    by_cases hw : wordstream = ""
    · simp [wordLoop, hw, join_nil]
    · simp [wordLoop, hw, join_nil, join_append, join_cons]
  | cons f rest ih =>
    intro wordstream allwords
    by_cases hf : f = " "
    · subst hf
      have hstep : wordLoop ((" " :: rest) ++ [" "]) wordstream allwords =
          wordLoop (rest ++ [" "]) ""
            (if wordstream ≠ "" then allwords ++ [wordstream] else allwords) := by
        simp [wordLoop]
      rw [hstep, ih]
      by_cases hw : wordstream = ""
      · simp [hw]
      · simp [hw, join_append, join_cons, join_nil]
    · have hstep : wordLoop ((f :: rest) ++ [" "]) wordstream allwords =
          wordLoop (rest ++ [" "]) (wordstream ++ f) allwords := by
        simp [wordLoop, hf]
      rw [hstep, ih]
      simp [hf, join_cons, String.append_assoc]

/-- C20: for every fragment sequence, the word assembler run on the sequence
followed by one blank fragment gives the reference word list (the runs between
blank fragments, each concatenated, the empty ones dropped, in order); the
concatenation of the words is the concatenation of the fragments that are not a
blank. -/
theorem C20_assembler_matches_reference (fragments : List String) :
    assembleWords (fragments ++ [" "]) = referenceWords fragments ∧
    String.join (assembleWords (fragments ++ [" "])) =
      String.join (fragments.filter (fun f => f ≠ " ")) := by
  constructor
  · obtain ⟨run, runs, hsplit, hloop⟩ := wordLoop_split fragments "" []
    unfold assembleWords referenceWords
    rw [hloop, hsplit]
    simp
  · have h := wordLoop_join fragments "" []
    unfold assembleWords
    rw [h]
    simp [join_nil]

end CVParser
